import Mathlib

/-!
Verification of `src/pystack.cc` (the pystack driver).

The file shallow-embeds the driver `main` of `src/pystack.cc`.  The helpers
declared in headers that are not part of this tree (`PtraceAttach`,
`PtraceDetach`, `ThreadStateAddr`, `GetStack`, the `Frame` class and the
exception hierarchy) are modelled abstractly, following the specification's
contracts, as parameters of a `World` structure: each call site in `main`
consumes the corresponding outcome from the world.

Machine details: `pid_t` on the target platform is a 32-bit signed integer,
`size_t` hashing is modelled over `Nat` (xor never overflows a word), and the
sampling clock is idealised (exact sleeps, instantaneous loop bodies), which is
the zero-jitter reading the specification itself adopts for its attempt-count
bounds.
-/

namespace Pystack

/-- Frame: one call-stack entry, per the data model: (file, function, line),
with equality on the full tuple. -/
structure Frame where
  file : String
  function : String
  line : Nat
deriving DecidableEq, Repr

/-- Stacks are ordered innermost-first, exactly as `GetStack` returns them. -/
abbrev frames_t := List Frame

/-- FrameHash loop body of `pystack.cc` lines 46-55: iterate `i` over the
frame indices, xor-ing `hash(i)` and `hash(frames[i].file())` into the
accumulator.  `hN` and `hS` stand for `std::hash<size_t>` and
`std::hash<std::string>`, which are implementation-defined. -/
def frameHashAux (hN : Nat → Nat) (hS : String → Nat) : Nat → Nat → frames_t → Nat
  | _, h, [] => h
  | i, h, f :: fs => frameHashAux hN hS (i + 1) ((h ^^^ hN i) ^^^ hS f.file) fs

/-- FrameHash: the hash functor used for the `std::unordered_map` of buckets
(`pystack.cc` lines 46-55).  It starts from 0 at index 0. -/
def FrameHash (hN : Nat → Nat) (hS : String → Nat) (frames : frames_t) : Nat :=
  frameHashAux hN hS 0 0 frames

/-- bucketInsert models the `buckets.find` / `insert` / `it->second++` logic of
`pystack.cc` lines 125-130: look the stack up by full structural equality; if
absent, add it with count 1, otherwise increment its count. -/
def bucketInsert : List (frames_t × Nat) → frames_t → List (frames_t × Nat)
  | [], fs => [(fs, 1)]
  | (k, c) :: rest, fs =>
      if k = fs then (k, c + 1) :: rest else (k, c) :: bucketInsert rest fs

/-- sumCounts: the total of all bucket occurrence counts. -/
def sumCounts (bs : List (frames_t × Nat)) : Nat :=
  (bs.map Prod.snd).sum

/-- optstring: the short-option string passed to `getopt_long` at
`pystack.cc` line 69. -/
def optstring : List Char := "hjr:s:v".toList

/-- Modelled from the spec: `getopt_long` itself is libc, not repository code.
Per its contract, a flag character that appears in the option string is
returned as-is, and an unrecognized flag yields the character `?`.  Argument
markers `:` are not option characters. -/
def getoptResult (c : Char) : Char :=
  if c ∈ optstring ∧ c ≠ ':' then c else '?'

/-- OptAction: what one arm of the option `switch` in `main` does. -/
inductive OptAction where
  /-- the loop just continues: cases `0`, `r`, `s` and `?` -/
  | proceed : OptAction
  /-- print the usage string and return 0: case `h` -/
  | usageExit0 : OptAction
  /-- print the package string and return 0: case `v` -/
  | versionExit0 : OptAction
  /-- the `default:` arm, which calls `abort()` -/
  | abortCall : OptAction
deriving DecidableEq, Repr

/-- handleOption mirrors the `switch (c)` of `pystack.cc` lines 73-99: `h`
prints usage and exits 0, `r` and `s` record their argument and continue, `v`
prints the version and exits 0, `?` continues (getopt already complained), and
everything else reaches `default: abort()`.  The `case 0` arm also continues,
but `getopt_long` never returns 0 here since no long option sets a flag. -/
def handleOption (c : Char) : OptAction :=
  if c = 'h' then .usageExit0
  else if c = 'r' then .proceed
  else if c = 's' then .proceed
  else if c = 'v' then .versionExit0
  else if c = '?' then .proceed
  else .abortCall

/-- digitsVal: accumulate leading decimal digits, stopping at the first
non-digit, as `strtol` does in base 10. -/
def digitsVal : List Char → Int → Int
  | [], acc => acc
  | c :: cs, acc =>
      if c.isDigit then digitsVal cs (acc * 10 + ((c.toNat : Int) - 48)) else acc

/-- strtol models `std::strtol(arg, nullptr, 10)` as used at `pystack.cc`
line 105: skip leading whitespace, take an optional sign, then consume decimal
digits; if no digits are present the result is 0, and with a null `endptr`
there is no way to detect that nothing was parsed. -/
def strtol (s : String) : Int :=
  let cs := s.toList.dropWhile (fun c => c = ' ' ∨ c = '\t' ∨ c = '\n')
  match cs with
  | '-' :: rest => - digitsVal rest 0
  | '+' :: rest => digitsVal rest 0
  | rest => digitsVal rest 0

/-- pidMax is `std::numeric_limits<pid_t>::max()`: `pid_t` is a 32-bit signed
integer on the target platform. -/
def pidMax : Int := 2147483647

/-- pidMin is `std::numeric_limits<pid_t>::min()`. -/
def pidMin : Int := -2147483648

/-- ExcKind distinguishes the two exception families of `exc.h`:
`FatalException` and `NonFatalException`. -/
inductive ExcKind where
  | fatal : ExcKind
  | nonfatal : ExcKind
deriving DecidableEq, Repr

/-- SampleResult: the outcome of one `GetStack(pid, addr)` call, as seen by the
caller in `main`: either a stack (innermost-first) or a thrown exception
carrying a message. -/
inductive SampleResult where
  | ok (frames : frames_t) : SampleResult
  | exc (k : ExcKind) (msg : String) : SampleResult
deriving DecidableEq, Repr

/-- Modelled from the spec: `PtraceAttach`, `ThreadStateAddr` and `GetStack`
are declared in headers outside this tree, so a run's interaction with the
target is a `World`: the outcome of the k-th `PtraceAttach` call (`none` is
success; `some msg` is a thrown `FatalException`, the only failure mode the
specification gives attach), the outcome of `ThreadStateAddr` (address, or a
`FatalException` message), and the outcome of the k-th `GetStack` call.
`PtraceDetach` is modelled as always succeeding. -/
structure World where
  attach : Nat → Option String
  threadState : Except String Nat
  samples : Nat → SampleResult

/-- Event: one observable ptrace lifecycle call on the target. `attach` is
recorded only when the `PtraceAttach` call succeeds. -/
inductive Event where
  | attach (pid : Int) : Event
  | detach (pid : Int) : Event
deriving DecidableEq, Repr

/-- LoopState: the two per-run accumulators of the sampling loop, `buckets`
and `empty` (`pystack.cc` lines 117-118). -/
structure LoopState where
  buckets : List (frames_t × Nat)
  empty : Nat
deriving DecidableEq, Repr

/-- initState: `buckets` empty and `empty = 0` at loop entry. -/
def initState : LoopState := ⟨[], 0⟩

/-- stepSample: the `try`/`catch` body of one loop iteration
(`pystack.cc` lines 123-133): a returned stack is folded into the bucket map;
a `NonFatalException` increments `empty`; a `FatalException` (or any other
exception) propagates out of the loop. -/
def stepSample (st : LoopState) (r : SampleResult) : Except String LoopState :=
  match r with
  | .ok fs => .ok ⟨bucketInsert st.buckets fs, st.empty⟩
  | .exc .nonfatal _ => .ok ⟨st.buckets, st.empty + 1⟩
  | .exc .fatal m => .error m

/-- loopAttemptsF: the number of loop-body executions under the idealised
clock, by structural recursion on a fuel bound.  At body start the remaining
time is `rem` microseconds; the break test `now + interval >= end`
(`pystack.cc` line 135) reads `interval >= rem`, and otherwise the
detach/sleep/attach step consumes exactly `interval`.  With a positive
interval each continued iteration consumes at least one microsecond, so fuel
`rem` is always sufficient and the fuel-exhaustion arm is never reached; the
source loop does not terminate when `interval = 0`. -/
def loopAttemptsF : Nat → Nat → Nat → Nat
  | 0, _, _ => 1
  | fuel + 1, interval, rem =>
      if rem ≤ interval then 1 else 1 + loopAttemptsF fuel interval (rem - interval)

/-- loopAttempts: loop-body executions for a duration of `rem` microseconds at
a sampling interval of `interval` microseconds. -/
def loopAttempts (interval : Nat) (rem : Nat) : Nat :=
  loopAttemptsF rem interval rem

/-- loopGo: the sampling loop of `pystack.cc` lines 122-141, run for `rem`
body executions (`rem` is produced by `loopAttempts`); `k` indexes the
`GetStack` and `PtraceAttach` calls.  On the last iteration the loop breaks
while still attached; on every other iteration it detaches, sleeps and
re-attaches, and a failing re-attach throws out of the loop.  The returned
list is the trace of ptrace events this fragment performs. -/
def loopGo (w : World) (pid : Int) :
    Nat → Nat → LoopState → Except String LoopState × List Event
  | _, 0, st => (.ok st, [])
  | k, 1, st =>
      match stepSample st (w.samples k) with
      | .error m => (.error m, [])
      | .ok st' => (.ok st', [])
  | k, rem + 2, st =>
      match stepSample st (w.samples k) with
      | .error m => (.error m, [])
      | .ok st' =>
          match w.attach (k + 1) with
          | some m => (.error m, [.detach pid])
          | none =>
              match loopGo w pid (k + 1) (rem + 1) st' with
              | (r, evs) => (r, .detach pid :: .attach pid :: evs)

/-- renderRev: the inner printing loop of `pystack.cc` lines 151-156 applied
to the reversed frame list: every frame but the last is followed by `;`, and
the last is followed by a space and the bucket count. -/
def renderRev (sf : Frame → String) : List Frame → Nat → String
  | [], c => " " ++ toString c
  | [f], c => sf f ++ " " ++ toString c
  | f :: g :: rest, c => sf f ++ ";" ++ renderRev sf (g :: rest) c

/-- printBuckets: the bucket output loop of `pystack.cc` lines 146-157.  Each
bucket is printed as one folded line, but an empty key makes the program print
`uh oh` on stderr and return 1, leaving the remaining buckets unprinted.
Returns (stdout lines, stderr lines, exit code contribution). -/
def printBuckets (sf : Frame → String) :
    List (frames_t × Nat) → List String × List String × Nat
  | [] => ([], [], 0)
  | (k, c) :: rest =>
      if k = [] then ([], ["uh oh"], 1)
      else
        match printBuckets sf rest with
        | (ls, errs, code) => (renderRev sf k.reverse c :: ls, errs, code)

/-- samplingOutput: the end-of-run output phase (`pystack.cc` lines 142-157):
first the `(null) <empty>` line when `empty` is nonzero, then the bucket
lines. -/
def samplingOutput (sf : Frame → String) (empty : Nat) (bs : List (frames_t × Nat)) :
    List String × List String × Nat :=
  match printBuckets sf bs with
  | (ls, errs, code) =>
      ((if empty ≠ 0 then ["(null) " ++ toString empty] else []) ++ ls, errs, code)

/-- MainResult: everything observable about one run of `main` after option
parsing: the exit code, the stdout lines, the stderr lines, and the trace of
ptrace lifecycle events on the target. -/
structure MainResult where
  exitCode : Nat
  stdout : List String
  stderr : List String
  events : List Event
deriving DecidableEq, Repr

/-- runMain: `main` of `pystack.cc` from line 101 on, for a single positional
argument `pidArg`.  `durationUs` and `intervalUs` are `seconds * 1000000` and
`sample_rate * 1000000` in microseconds; sampling mode is selected when the
duration is nonzero, single-shot otherwise (`RunOnce` prints the stack
reversed, one frame per line).  `sf` renders one frame as `operator<<` does.
Exceptions escaping the `try` block map to the three `catch` arms of lines
161-170. -/
def runMain (sf : Frame → String) (w : World) (pidArg : String)
    (durationUs intervalUs : Nat) : MainResult :=
  let pid := strtol pidArg
  if pid > pidMax ∨ pid < pidMin then
    ⟨1, [], ["PID " ++ toString pid ++ " is out of valid PID range."], []⟩
  else
    match w.attach 0 with
    | some m => ⟨1, [], [m], []⟩
    | none =>
        match w.threadState with
        | .error m => ⟨1, [], [m], [.attach pid]⟩
        | .ok _addr =>
            if durationUs ≠ 0 then
              match loopGo w pid 0 (loopAttempts intervalUs durationUs) initState with
              | (.error m, evs) => ⟨1, [], [m], .attach pid :: evs⟩
              | (.ok st, evs) =>
                  match samplingOutput sf st.empty st.buckets with
                  | (ls, errs, code) => ⟨code, ls, errs, .attach pid :: evs⟩
            else
              match w.samples 0 with
              | .ok fs => ⟨0, fs.reverse.map sf, [], [.attach pid]⟩
              | .exc .nonfatal m => ⟨0, [], [m], [.attach pid]⟩
              | .exc .fatal m => ⟨1, [], [m], [.attach pid]⟩

/-- attachCount: how many successful `PtraceAttach` calls a trace records. -/
def attachCount (evs : List Event) : Nat :=
  (evs.filter fun e => match e with | .attach _ => true | .detach _ => false).length

/-- detachCount: how many `PtraceDetach` calls a trace records. -/
def detachCount (evs : List Event) : Nat :=
  (evs.filter fun e => match e with | .attach _ => false | .detach _ => true).length

/-- alternatingAux checks that a ptrace event trace strictly alternates; the
flag says whether an attach (`true`) or a detach (`false`) is expected next. -/
def alternatingAux : Bool → List Event → Bool
  | _, [] => true
  | true, .attach _ :: r => alternatingAux false r
  | false, .detach _ :: r => alternatingAux true r
  | _, _ => false

/-- sfFile: a concrete frame renderer used for closed runs of the model. -/
def sfFile : Frame → String := fun f => f.file

/-- wAttachOk: a concrete world in which every attach succeeds, the
thread-state address resolves, and every walk returns the one-frame stack
`[{a.py, main, 3}]`. -/
def wAttachOk : World :=
  ⟨fun _ => none, .ok 4096, fun _ => .ok [⟨"a.py", "main", 3⟩]⟩

/-- wAttachFail: a concrete world in which the first attach throws a
`FatalException` with message `boom`. -/
def wAttachFail : World :=
  ⟨fun _ => some "boom", .ok 4096, fun _ => .ok [⟨"a.py", "main", 3⟩]⟩

/-- joinSemi joins a list of rendered frames with the `;` delimiter, the
folded-stack encoding of the specification. -/
def joinSemi : List String → String
  | [] => ""
  | [x] => x
  | x :: y :: r => x ++ ";" ++ joinSemi (y :: r)

/-- frameHashAux only looks at the `file` field of each frame, so two frame
lists with equal per-position file names hash identically from any starting
index and accumulator. -/
theorem frameHashAux_file_congr (hN : Nat → Nat) (hS : String → Nat) :
    ∀ (s1 s2 : frames_t), s1.map Frame.file = s2.map Frame.file →
      ∀ i h, frameHashAux hN hS i h s1 = frameHashAux hN hS i h s2 := by
  intro s1
  induction s1 with
  | nil =>
      intro s2 hmap i h
      cases s2 with
      | nil => rfl
      | cons b bs => simp at hmap
  | cons a as ih =>
      intro s2 hmap i h
      cases s2 with
      | nil => simp at hmap
      | cons b bs =>
          simp only [List.map_cons, List.cons.injEq] at hmap
          obtain ⟨hf, ht⟩ := hmap
          simp only [frameHashAux, hf]
          exact ih bs ht (i + 1) _

/-- bucketInsert never invents keys: every key after an insert was already a
key, or is the inserted stack itself. -/
theorem bucketInsert_keys_subset (bs : List (frames_t × Nat)) (fs : frames_t) :
    ∀ kk ∈ (bucketInsert bs fs).map Prod.fst, kk ∈ bs.map Prod.fst ∨ kk = fs := by
  induction bs with
  | nil =>
      intro kk hkk
      simp [bucketInsert] at hkk
      exact Or.inr hkk
  | cons kc rest ih =>
      intro kk hkk
      obtain ⟨k, c⟩ := kc
      by_cases hk : k = fs
      · simp only [bucketInsert, if_pos hk, List.map_cons, List.mem_cons] at hkk
        rcases hkk with h1 | h2
        · exact Or.inl (by simp [h1])
        · exact Or.inl (by simp [h2])
      · simp [bucketInsert, hk] at hkk
        rcases hkk with h1 | h2
        · exact Or.inl (by simp [h1])
        · rcases ih kk (by simpa using h2) with h3 | h4
          · exact Or.inl (by simp [h3])
          · exact Or.inr h4

/-- bucketInsert with a key already present leaves the key set unchanged. -/
theorem bucketInsert_keys_present (bs : List (frames_t × Nat)) (fs : frames_t)
    (h : fs ∈ bs.map Prod.fst) :
    (bucketInsert bs fs).map Prod.fst = bs.map Prod.fst := by
  induction bs with
  | nil => simp at h
  | cons kc rest ih =>
      obtain ⟨k, c⟩ := kc
      by_cases hk : k = fs
      · simp [bucketInsert, hk]
      · simp only [List.map_cons, List.mem_cons] at h
        rcases h with h1 | h2
        · exact absurd h1.symm hk
        · simp [bucketInsert, hk, ih h2]

/-- bucketInsert with a fresh key appends it, with count 1, at the end. -/
theorem bucketInsert_keys_fresh (bs : List (frames_t × Nat)) (fs : frames_t)
    (h : fs ∉ bs.map Prod.fst) :
    (bucketInsert bs fs).map Prod.fst = bs.map Prod.fst ++ [fs] := by
  induction bs with
  | nil => simp [bucketInsert]
  | cons kc rest ih =>
      obtain ⟨k, c⟩ := kc
      simp only [List.map_cons, List.mem_cons] at h
      push_neg at h
      have hk : k ≠ fs := fun he => h.1 he.symm
      simp [bucketInsert, hk, ih h.2]

/-- C8: the bucket hash incorporates, per frame, only the position index and
the file name: two stacks with equal per-position file lists always collide,
whatever `std::hash` instances the platform supplies; and bucket membership is
decided by full structural equality of the frame tuples: inserting a stack
whose full tuple list matches an existing key leaves the key set unchanged,
while any stack differing in any field of any frame (even with identical
files) is appended as a new key. -/
theorem frame_hash_uses_only_position_and_file :
    (∀ (hN : Nat → Nat) (hS : String → Nat) (s1 s2 : frames_t),
        s1.map Frame.file = s2.map Frame.file →
        FrameHash hN hS s1 = FrameHash hN hS s2) ∧
    (∀ (bs : List (frames_t × Nat)) (fs : frames_t),
        (fs ∈ bs.map Prod.fst →
          (bucketInsert bs fs).map Prod.fst = bs.map Prod.fst) ∧
        (fs ∉ bs.map Prod.fst →
          (bucketInsert bs fs).map Prod.fst = bs.map Prod.fst ++ [fs])) := by
  constructor
  · intro hN hS s1 s2 hmap
    exact frameHashAux_file_congr hN hS s1 s2 hmap 0 0
  · intro bs fs
    exact ⟨bucketInsert_keys_present bs fs, bucketInsert_keys_fresh bs fs⟩

/-- Witness for C8: the stacks `[{a.py, f, 1}]` and `[{a.py, g, 2}]` agree on
files only, hash identically, yet form two distinct bucket keys. -/
theorem frame_hash_uses_only_position_and_file_witness :
    FrameHash Nat.succ String.length [⟨"a.py", "f", 1⟩] =
      FrameHash Nat.succ String.length [⟨"a.py", "g", 2⟩] ∧
    (bucketInsert [([⟨"a.py", "f", 1⟩], 1)] [⟨"a.py", "g", 2⟩]).map Prod.fst =
      [[⟨"a.py", "f", 1⟩]] ++ [[⟨"a.py", "g", 2⟩]] :=
  ⟨frame_hash_uses_only_position_and_file.1 Nat.succ String.length _ _ (by decide),
   (frame_hash_uses_only_position_and_file.2 [([⟨"a.py", "f", 1⟩], 1)]
      [⟨"a.py", "g", 2⟩]).2 (by decide)⟩

/-- C10: `j` appears in the short-option string, so `getopt_long` returns it
as a recognized option rather than `?`; no `case` of the switch handles `j`,
so it reaches `default: abort()` — unlike a genuinely unknown flag, which
getopt maps to `?` and the switch quietly continues past. -/
theorem dash_j_hits_default_abort :
    getoptResult 'j' = 'j' ∧
    handleOption (getoptResult 'j') = OptAction.abortCall ∧
    handleOption '?' ≠ OptAction.abortCall := by decide

/-- C7: a parsed pid outside the 32-bit `pid_t` range makes `main` print a
diagnostic naming the value and return 1, with no ptrace event (in particular
no attach) ever performed. -/
theorem out_of_range_pid_exits_one_without_attach
    (sf : Frame → String) (w : World) (s : String) (D I : Nat)
    (h : strtol s > pidMax ∨ strtol s < pidMin) :
    runMain sf w s D I =
      ⟨1, [], ["PID " ++ toString (strtol s) ++ " is out of valid PID range."], []⟩ := by
  simp only [runMain]
  rw [if_pos h]

/-- Witness for C7: the spec's example pid `999999999999` exceeds
`pid_t` max, so the run exits 1 with the diagnostic and an empty event
trace. -/
theorem out_of_range_pid_exits_one_without_attach_witness :
    runMain sfFile wAttachOk "999999999999" 0 10000 =
      ⟨1, [],
       ["PID " ++ toString (strtol "999999999999") ++ " is out of valid PID range."],
       []⟩ :=
  out_of_range_pid_exits_one_without_attach sfFile wAttachOk "999999999999" 0 10000
    (by decide)

/-- C9: `strtol` parses `abc` as 0 with no failure signal, the range check
passes, and the program proceeds to attach pid 0 and complete a normal
single-shot run (exit 0) instead of rejecting the argument. -/
theorem nonnumeric_pid_parses_as_zero_and_attaches :
    strtol "abc" = 0 ∧
    runMain sfFile wAttachOk "abc" 0 10000 =
      ⟨0, ["a.py"], [], [Event.attach 0]⟩ := by decide

/-- Counterexample for C5: a successful single-shot run performs one
successful attach and zero detaches, so it is false that exactly one detach
follows every successful attach before the program exits. -/
theorem final_attach_never_detached :
    (runMain sfFile wAttachOk "123" 0 10000).events = [Event.attach 123] ∧
    detachCount (runMain sfFile wAttachOk "123" 0 10000).events ≠
      attachCount (runMain sfFile wAttachOk "123" 0 10000).events := by decide

/-- string_append_assoc: concatenation of strings is associative (via the
underlying character lists). -/
theorem string_append_assoc (a b c : String) : a ++ b ++ c = a ++ (b ++ c) := by
  apply String.ext
  simp [String.data_append]

/-- renderRev is exactly the `;`-join of the rendered frames followed by a
space and the count, for any nonempty frame list. -/
theorem renderRev_eq_joinSemi (sf : Frame → String) :
    ∀ (l : List Frame) (c : Nat), l ≠ [] →
      renderRev sf l c = joinSemi (l.map sf) ++ " " ++ toString c := by
  intro l
  induction l with
  | nil => intro c h; exact absurd rfl h
  | cons f rest ih =>
      intro c _
      cases rest with
      | nil => rfl
      | cons g rest2 =>
          simp only [renderRev, List.map_cons, joinSemi]
          rw [ih c (by simp)]
          simp [string_append_assoc]

/-- printBuckets, on a bucket list whose keys are all nonempty, emits exactly
one folded line per bucket, nothing on stderr, and exit contribution 0. -/
theorem printBuckets_of_nonempty (sf : Frame → String) :
    ∀ bs : List (frames_t × Nat), (∀ kk ∈ bs.map Prod.fst, kk ≠ []) →
      printBuckets sf bs =
        (bs.map fun kc => renderRev sf kc.1.reverse kc.2, [], 0) := by
  intro bs
  induction bs with
  | nil => intro _; rfl
  | cons kc rest ih =>
      intro h
      obtain ⟨k, c⟩ := kc
      have hk : k ≠ [] := h k (by simp)
      have hrest : ∀ kk ∈ rest.map Prod.fst, kk ≠ [] := by
        intro kk hkk
        exact h kk (by simp [hkk])
      simp [printBuckets, hk, ih hrest]

/-- C1: at the end of a sampling run whose bucket keys are all nonempty, the
output is: a `(null) <EmptyCount>` line exactly when EmptyCount is positive,
then one line per bucket consisting of the stack's frames in outermost-first
order (the stored order is innermost-first, so the printed order is its
reverse) joined by `;`, a single space, and the occurrence count; nothing goes
to stderr and the phase contributes exit code 0. -/
theorem sampling_output_is_folded_format (sf : Frame → String) (e : Nat)
    (bs : List (frames_t × Nat)) (h : ∀ kk ∈ bs.map Prod.fst, kk ≠ []) :
    samplingOutput sf e bs =
      ((if 0 < e then ["(null) " ++ toString e] else []) ++
         bs.map fun kc => joinSemi (kc.1.reverse.map sf) ++ " " ++ toString kc.2,
       [], 0) := by
  have hmap : (bs.map fun kc => renderRev sf kc.1.reverse kc.2) =
      bs.map fun kc => joinSemi (kc.1.reverse.map sf) ++ " " ++ toString kc.2 := by
    apply List.map_congr_left
    intro kc hkc
    have hk : kc.1 ≠ [] := h kc.1 (List.mem_map_of_mem Prod.fst hkc)
    exact renderRev_eq_joinSemi sf kc.1.reverse kc.2 (by simpa using hk)
  simp only [samplingOutput, printBuckets_of_nonempty sf bs h, hmap]
  by_cases he : e = 0
  · simp [he]
  · rw [if_pos (Nat.pos_of_ne_zero he)]
    simp [he]

/-- Witness for C1: EmptyCount 2 with one bucket holding the two-frame stack
`[a.py innermost, b.py outermost]` seen 3 times prints the `(null) 2` line and
the folded line `b.py;a.py 3`. -/
theorem sampling_output_is_folded_format_witness :
    samplingOutput sfFile 2 [([⟨"a.py", "f", 1⟩, ⟨"b.py", "g", 2⟩], 3)] =
      (["(null) 2", "b.py;a.py 3"], [], 0) :=
  (sampling_output_is_folded_format sfFile 2
      [([⟨"a.py", "f", 1⟩, ⟨"b.py", "g", 2⟩], 3)] (by decide)).trans (by decide)

/-- C4: when an empty stack is present as a bucket key, the printing loop
emits the folded lines of the buckets strictly before it, then reports
`uh oh` on stderr and returns exit code 1: the empty bucket is neither
silently skipped nor printed. -/
theorem empty_bucket_key_aborts_with_uh_oh (sf : Frame → String)
    (bs : List (frames_t × Nat)) (h : [] ∈ bs.map Prod.fst) :
    printBuckets sf bs =
      ((bs.takeWhile fun kc => !kc.1.isEmpty).map
         fun kc => renderRev sf kc.1.reverse kc.2,
       ["uh oh"], 1) := by
  induction bs with
  | nil => simp at h
  | cons kc rest ih =>
      obtain ⟨k, c⟩ := kc
      by_cases hk : k = []
      · subst hk
        simp [printBuckets]
      · simp only [List.map_cons, List.mem_cons] at h
        rcases h with h1 | h2
        · exact absurd h1.symm hk
        · have hke : k.isEmpty = false := by
            simp [List.isEmpty_iff, hk]
          simp [printBuckets, hk, ih h2, hke]

/-- Witness for C4: with a good bucket followed by an empty-keyed bucket, the
good line is printed, `uh oh` goes to stderr, and the exit code is 1. -/
theorem empty_bucket_key_aborts_with_uh_oh_witness :
    printBuckets sfFile [([⟨"a.py", "f", 1⟩], 2), ([], 5)] =
      (["a.py 2"], ["uh oh"], 1) :=
  (empty_bucket_key_aborts_with_uh_oh sfFile [([⟨"a.py", "f", 1⟩], 2), ([], 5)]
      (by decide)).trans (by decide)

/-- sumCounts grows by exactly one on every bucketInsert, whether the stack
was already a key (its count is incremented) or not (a fresh count-1 entry). -/
theorem sumCounts_bucketInsert (bs : List (frames_t × Nat)) (fs : frames_t) :
    sumCounts (bucketInsert bs fs) = sumCounts bs + 1 := by
  induction bs with
  | nil => rfl
  | cons kc rest ih =>
      obtain ⟨k, c⟩ := kc
      by_cases hk : k = fs
      · simp [bucketInsert, hk, sumCounts]
        omega
      · simp only [bucketInsert, if_neg hk]
        simp [sumCounts] at *
        omega

/-- stepSample, when it does not propagate a fatal exception, increments
exactly one of the two accumulators by exactly one. -/
theorem stepSample_ok_sum (st st' : LoopState) (r : SampleResult)
    (h : stepSample st r = .ok st') :
    st'.empty + sumCounts st'.buckets = st.empty + sumCounts st.buckets + 1 := by
  cases r with
  | ok fs =>
      simp only [stepSample, Except.ok.injEq] at h
      subst h
      simp [sumCounts_bucketInsert]
      omega
  | exc k m =>
      cases k with
      | fatal => simp [stepSample] at h
      | nonfatal =>
          simp only [stepSample, Except.ok.injEq] at h
          subst h
          simp
          omega

/-- loopGo runs exactly `rem` loop bodies when no fatal exception occurs, and
each body adds one to `empty + sum of counts`. -/
theorem loopGo_conservation (w : World) (pid : Int) :
    ∀ rem k st st' evs, loopGo w pid k rem st = (.ok st', evs) →
      st'.empty + sumCounts st'.buckets =
        st.empty + sumCounts st.buckets + rem := by
  intro rem
  induction rem using Nat.strong_induction_on with
  | _ rem ih =>
    match rem with
    | 0 =>
        intro k st st' evs h
        simp only [loopGo, Prod.mk.injEq, Except.ok.injEq] at h
        obtain ⟨h1, _⟩ := h
        subst h1
        omega
    | 1 =>
        intro k st st' evs h
        simp only [loopGo] at h
        cases hs : stepSample st (w.samples k) with
        | error m => rw [hs] at h; dsimp only at h; simp at h
        | ok stm =>
            rw [hs] at h
            dsimp only at h
            simp only [Prod.mk.injEq, Except.ok.injEq] at h
            obtain ⟨h1, _⟩ := h
            have hstep := stepSample_ok_sum st stm (w.samples k) hs
            rw [h1] at hstep
            omega
    | rem2 + 2 =>
        intro k st st' evs h
        simp only [loopGo] at h
        cases hs : stepSample st (w.samples k) with
        | error m => rw [hs] at h; dsimp only at h; simp at h
        | ok stm =>
            rw [hs] at h
            dsimp only at h
            cases ha : w.attach (k + 1) with
            | some m => rw [ha] at h; dsimp only at h; simp at h
            | none =>
                rw [ha] at h
                dsimp only at h
                cases hrec : loopGo w pid (k + 1) (rem2 + 1) stm with
                | mk r evs2 =>
                    rw [hrec] at h
                    simp only [Prod.mk.injEq] at h
                    obtain ⟨h1, _⟩ := h
                    rw [h1] at hrec
                    have hstep := stepSample_ok_sum st stm (w.samples k) hs
                    have hrest := ih (rem2 + 1) (by omega) (k + 1) stm st' evs2 hrec
                    omega

/-- loopAttemptsF computes, for a positive interval and sufficient fuel, the
ceiling of `rem / interval`. -/
theorem loopAttemptsF_eq_ceil (I : Nat) (hI : 0 < I) :
    ∀ fuel rem, rem ≤ fuel → 0 < rem →
      loopAttemptsF fuel I rem = (rem + I - 1) / I := by
  intro fuel
  induction fuel with
  | zero => intro rem h1 h2; omega
  | succ fuel ih =>
      intro rem h1 h2
      by_cases h : rem ≤ I
      · rw [loopAttemptsF, if_pos h]
        have lo : 1 * I ≤ rem + I - 1 := by omega
        have hi : rem + I - 1 < (1 + 1) * I := by omega
        rw [Nat.div_eq_of_lt_le lo hi]
      · rw [loopAttemptsF, if_neg h]
        rw [ih (rem - I) (by omega) (by omega)]
        have h3 : rem + I - 1 = (rem - 1) + I := by omega
        have h4 : rem - I + I - 1 = rem - 1 := by omega
        rw [h3, h4, Nat.add_div_right _ hI]
        omega

/-- loopAttempts equals the ceiling of `duration / interval` whenever both are
positive: fuel `rem` is sufficient. -/
theorem loopAttempts_eq_ceil (I D : Nat) (hI : 0 < I) (hD : 0 < D) :
    loopAttempts I D = (D + I - 1) / I :=
  loopAttemptsF_eq_ceil I hI D D (Nat.le_refl D) hD

/-- C2: under the idealised zero-jitter clock, a sampling run of duration `D`
microseconds at interval `I` microseconds performs `ceil(D/I)` capture
attempts — hence at least `floor(D/I)` and at most `ceil(D/I)` — and on any
completed run (no fatal exception) the final EmptyCount plus the sum of all
bucket counts equals the number of attempts: every loop body increments
exactly one of the two accumulators by exactly one. -/
theorem sampling_attempt_bounds_and_conservation
    (D I : Nat) (hD : 0 < D) (hI : 0 < I)
    (w : World) (pid : Int) (st : LoopState) (evs : List Event)
    (hrun : loopGo w pid 0 (loopAttempts I D) initState = (.ok st, evs)) :
    D / I ≤ loopAttempts I D ∧
    loopAttempts I D ≤ (D + I - 1) / I ∧
    st.empty + sumCounts st.buckets = loopAttempts I D := by
  have hceil := loopAttempts_eq_ceil I D hI hD
  refine ⟨?_, ?_, ?_⟩
  · rw [hceil]
    exact Nat.div_le_div_right (by omega)
  · rw [hceil]
  · have hc := loopGo_conservation w pid (loopAttempts I D) 0 initState st evs hrun
    simpa [initState, sumCounts] using hc

/-- wSampler: a concrete world whose second walk throws a
`NonFatalException` and whose other walks return the one-frame stack. -/
def wSampler : World :=
  ⟨fun _ => none, .ok 4096,
   fun k => if k = 1 then .exc .nonfatal "gone" else .ok [⟨"a.py", "main", 3⟩]⟩

/-- Witness for C2: duration 5, interval 2 gives ceil(5/2) = 3 attempts; the
run of `wSampler` buckets two samples and diverts one to EmptyCount, and
1 + 2 = 3. -/
theorem sampling_attempt_bounds_and_conservation_witness :
    5 / 2 ≤ loopAttempts 2 5 ∧ loopAttempts 2 5 ≤ (5 + 2 - 1) / 2 ∧
    (⟨[([⟨"a.py", "main", 3⟩], 2)], 1⟩ : LoopState).empty +
        sumCounts [([⟨"a.py", "main", 3⟩], 2)] = loopAttempts 2 5 :=
  sampling_attempt_bounds_and_conservation 5 2 (by decide) (by decide) wSampler 7
    ⟨[([⟨"a.py", "main", 3⟩], 2)], 1⟩
    [.detach 7, .attach 7, .detach 7, .attach 7] (by rfl)

/-- stepSample never invents bucket keys: a key after a step was already a
key, or is the very stack the walk returned. -/
theorem stepSample_keys (st st' : LoopState) (r : SampleResult)
    (h : stepSample st r = .ok st') :
    ∀ kk ∈ st'.buckets.map Prod.fst,
      kk ∈ st.buckets.map Prod.fst ∨ r = .ok kk := by
  cases r with
  | ok fs =>
      simp only [stepSample, Except.ok.injEq] at h
      subst h
      intro kk hkk
      rcases bucketInsert_keys_subset st.buckets fs kk hkk with h1 | h2
      · exact Or.inl h1
      · exact Or.inr (by rw [h2])
  | exc k m =>
      cases k with
      | fatal => simp [stepSample] at h
      | nonfatal =>
          simp only [stepSample, Except.ok.injEq] at h
          subst h
          intro kk hkk
          exact Or.inl hkk

/-- loopGo preserves the invariant that every bucket key is nonempty,
provided the walker only ever returns nonempty stacks. -/
theorem loopGo_keys (w : World) (pid : Int)
    (hw : ∀ j fs, w.samples j = .ok fs → fs ≠ []) :
    ∀ rem k st, (∀ kk ∈ st.buckets.map Prod.fst, kk ≠ []) →
      ∀ st' evs, loopGo w pid k rem st = (.ok st', evs) →
        ∀ kk ∈ st'.buckets.map Prod.fst, kk ≠ [] := by
  have hkeep : ∀ k st1 st2, stepSample st1 (w.samples k) = .ok st2 →
      (∀ kk ∈ st1.buckets.map Prod.fst, kk ≠ []) →
      ∀ kk ∈ st2.buckets.map Prod.fst, kk ≠ [] := by
    intro k st1 st2 hs1 hst1 kk hkk
    rcases stepSample_keys st1 st2 _ hs1 kk hkk with h1 | h2
    · exact hst1 kk h1
    · exact hw k kk h2
  intro rem
  induction rem using Nat.strong_induction_on with
  | _ rem ih =>
    match rem with
    | 0 =>
        intro k st hst st' evs h
        simp only [loopGo, Prod.mk.injEq, Except.ok.injEq] at h
        obtain ⟨h1, _⟩ := h
        subst h1
        exact hst
    | 1 =>
        intro k st hst st' evs h
        simp only [loopGo] at h
        cases hs : stepSample st (w.samples k) with
        | error m => rw [hs] at h; dsimp only at h; simp at h
        | ok stm =>
            rw [hs] at h
            dsimp only at h
            simp only [Prod.mk.injEq, Except.ok.injEq] at h
            obtain ⟨h1, _⟩ := h
            rw [h1] at hs
            exact hkeep k st st' hs hst
    | rem2 + 2 =>
        intro k st hst st' evs h
        simp only [loopGo] at h
        cases hs : stepSample st (w.samples k) with
        | error m => rw [hs] at h; dsimp only at h; simp at h
        | ok stm =>
            rw [hs] at h
            dsimp only at h
            cases ha : w.attach (k + 1) with
            | some m => rw [ha] at h; dsimp only at h; simp at h
            | none =>
                rw [ha] at h
                dsimp only at h
                cases hrec : loopGo w pid (k + 1) (rem2 + 1) stm with
                | mk r evs2 =>
                    rw [hrec] at h
                    simp only [Prod.mk.injEq] at h
                    obtain ⟨h1, _⟩ := h
                    rw [h1] at hrec
                    exact ih (rem2 + 1) (by omega) (k + 1) stm
                      (hkeep k st stm hs hst) st' evs2 hrec

/-- C3: in sampling mode an unusable sample (`NonFatalException`, which per
the specification covers the null-current-frame case) increments EmptyCount
and leaves the bucket map untouched, and — since the walker never returns an
empty stack as a value — no empty stack is ever a bucket key, so the final
printing phase emits exactly one folded line per (nonempty) key and no empty
key appears in a printed line. -/
theorem empty_stack_diverted_to_empty_count
    (w : World) (pid : Int)
    (hw : ∀ j fs, w.samples j = .ok fs → fs ≠ [])
    (rem k : Nat) (st' : LoopState) (evs : List Event)
    (hrun : loopGo w pid k rem initState = (.ok st', evs)) :
    (∀ (st : LoopState) (m : String),
        stepSample st (.exc .nonfatal m) = .ok ⟨st.buckets, st.empty + 1⟩) ∧
    (∀ kk ∈ st'.buckets.map Prod.fst, kk ≠ []) ∧
    ∀ sf : Frame → String,
      printBuckets sf st'.buckets =
        (st'.buckets.map fun kc => renderRev sf kc.1.reverse kc.2, [], 0) := by
  have hkeys := loopGo_keys w pid hw rem k initState (by simp [initState]) st' evs hrun
  exact ⟨fun st m => rfl, hkeys,
    fun sf => printBuckets_of_nonempty sf st'.buckets hkeys⟩

/-- Witness for C3: the completed `wSampler` run has the single nonempty key
`[{a.py, main, 3}]`; its unusable second sample went to EmptyCount. -/
theorem empty_stack_diverted_to_empty_count_witness :
    (∀ (st : LoopState) (m : String),
        stepSample st (.exc .nonfatal m) = .ok ⟨st.buckets, st.empty + 1⟩) ∧
    (∀ kk ∈ ([([⟨"a.py", "main", 3⟩], 2)] : List (frames_t × Nat)).map Prod.fst,
        kk ≠ []) ∧
    (∀ sf : Frame → String,
        printBuckets sf [([⟨"a.py", "main", 3⟩], 2)] =
          ([renderRev sf ([⟨"a.py", "main", 3⟩] : frames_t).reverse 2], [], 0)) :=
  empty_stack_diverted_to_empty_count wSampler 7
    (by
      intro j fs h
      by_cases hj : j = 1
      · simp [wSampler, hj] at h
      · simp [wSampler, hj] at h
        simp [← h])
    3 0 ⟨[([⟨"a.py", "main", 3⟩], 2)], 1⟩
    [.detach 7, .attach 7, .detach 7, .attach 7] (by rfl)

/-- loopGo's event block is an alternating detach/attach sequence starting
with a detach (the detach matching the attach that preceded loop entry). -/
theorem loopGo_alternation (w : World) (pid : Int) :
    ∀ rem k st, alternatingAux false (loopGo w pid k rem st).2 = true := by
  intro rem
  induction rem using Nat.strong_induction_on with
  | _ rem ih =>
    match rem with
    | 0 => intro k st; rfl
    | 1 =>
        intro k st
        cases hs : stepSample st (w.samples k) with
        | error m => simp [loopGo, hs, alternatingAux]
        | ok stm => simp [loopGo, hs, alternatingAux]
    | rem2 + 2 =>
        intro k st
        cases hs : stepSample st (w.samples k) with
        | error m => simp [loopGo, hs, alternatingAux]
        | ok stm =>
            cases ha : w.attach (k + 1) with
            | some m => simp [loopGo, hs, ha, alternatingAux]
            | none =>
                have hrec := ih (rem2 + 1) (by omega) (k + 1) stm
                simp only [loopGo, hs, ha, alternatingAux]
                exact hrec

/-- C5 (amended): over every input and world, the ptrace calls of a run
strictly alternate beginning with an attach — there is never a double-attach
or a double-detach, and every detach is preceded by a successful attach.
(The original claim's stronger demand, that a detach also follows every
successful attach before exit, is refuted by `final_attach_never_detached`:
completion paths exit while still attached.) -/
theorem attach_detach_strictly_alternate (sf : Frame → String) (w : World)
    (s : String) (D I : Nat) :
    alternatingAux true (runMain sf w s D I).events = true := by
  simp only [runMain]
  by_cases hp : strtol s > pidMax ∨ strtol s < pidMin
  · rw [if_pos hp]
    rfl
  · rw [if_neg hp]
    cases ha : w.attach 0 with
    | some m => rfl
    | none =>
        cases ht : w.threadState with
        | error m => rfl
        | ok a =>
            by_cases hD : D ≠ 0
            · rw [if_pos hD]
              cases hl : loopGo w (strtol s) 0 (loopAttempts I D) initState with
              | mk r evs =>
                  have halt : alternatingAux false evs = true := by
                    have := loopGo_alternation w (strtol s)
                      (loopAttempts I D) 0 initState
                    rw [hl] at this
                    exact this
                  cases r with
                  | error m =>
                      simpa [alternatingAux] using halt
                  | ok st =>
                      cases ho : samplingOutput sf st.empty st.buckets with
                      | mk ls rest =>
                          cases rest with
                          | mk errs code =>
                              simpa [alternatingAux] using halt
            · rw [if_neg hD]
              cases hs0 : w.samples 0 with
              | ok fs => rfl
              | exc k m => cases k <;> rfl

/-- C6: a `FatalException` anywhere — attach failure, thread-state location
failure, or a fatal condition during a walk or re-attach inside the sampling
loop — reaches the outer catch, is printed to stderr, and yields exit code 1
with no stdout (no partial folded-stack output); a `NonFatalException`
escaping in single-shot mode is printed to stderr and yields exit code 0. -/
theorem fatal_exits_one_nonfatal_single_shot_exits_zero
    (sf : Frame → String) (w : World) (s : String) (D I : Nat)
    (hpid : ¬(strtol s > pidMax ∨ strtol s < pidMin)) :
    (∀ m, w.attach 0 = some m →
        runMain sf w s D I = ⟨1, [], [m], []⟩) ∧
    (∀ m, w.attach 0 = none → w.threadState = .error m →
        runMain sf w s D I = ⟨1, [], [m], [.attach (strtol s)]⟩) ∧
    (∀ a m evs, w.attach 0 = none → w.threadState = .ok a → D ≠ 0 →
        loopGo w (strtol s) 0 (loopAttempts I D) initState = (.error m, evs) →
        runMain sf w s D I = ⟨1, [], [m], .attach (strtol s) :: evs⟩) ∧
    (∀ a m, w.attach 0 = none → w.threadState = .ok a → D = 0 →
        w.samples 0 = .exc .fatal m →
        runMain sf w s D I = ⟨1, [], [m], [.attach (strtol s)]⟩) ∧
    (∀ a m, w.attach 0 = none → w.threadState = .ok a → D = 0 →
        w.samples 0 = .exc .nonfatal m →
        runMain sf w s D I = ⟨0, [], [m], [.attach (strtol s)]⟩) := by
  refine ⟨?_, ?_, ?_, ?_, ?_⟩
  · intro m ha
    simp only [runMain]
    rw [if_neg hpid, ha]
  · intro m ha ht
    simp only [runMain]
    rw [if_neg hpid, ha, ht]
  · intro a m evs ha ht hD hl
    simp only [runMain]
    rw [if_neg hpid, ha, ht]
    dsimp only
    rw [if_pos hD, hl]
  · intro a m ha ht hD hs0
    simp only [runMain]
    rw [if_neg hpid, ha, ht]
    dsimp only
    rw [if_neg (by simp [hD]), hs0]
  · intro a m ha ht hD hs0
    simp only [runMain]
    rw [if_neg hpid, ha, ht]
    dsimp only
    rw [if_neg (by simp [hD]), hs0]

/-- Witness for C6: the failing-attach world exits 1 with the exception
message on stderr and no output. -/
theorem fatal_exits_one_nonfatal_single_shot_exits_zero_witness :
    runMain sfFile wAttachFail "123" 0 10000 = ⟨1, [], ["boom"], []⟩ :=
  (fatal_exits_one_nonfatal_single_shot_exits_zero sfFile wAttachFail "123" 0 10000
      (by decide)).1 "boom" rfl

end Pystack
